import Mathlib

/-!
Verification of the Conda/Pip step-decorator dependency-resolution engine
(`conda_step_decorator.py`).  The definitions below are a shallow embedding of
the Python source: Python dicts become association lists (`List (String × String)`,
insertion-ordered, duplicate-free keys in practice), `None`-able attributes
become `Option`, raised exceptions become `Except Err`, and the external
collaborators (pin source, version canonicalizer, base-environment extractor)
become explicit function parameters collected in `Ext`.
-/

namespace MetaflowConda

-- Decidable equality for `Except`, used to evaluate the embedded fallible
-- functions on concrete inputs.
deriving instance DecidableEq for Except

/-! ## Data model: typed entries, environment types, reference environments -/

/-- Typed (category, value) entry, the `TStr` value type of `env_descr`. -/
structure TStr where
  category : String
  value : String
deriving DecidableEq

/-- Environment type enumeration (`EnvType` in `env_descr`); only `PIP_ONLY`
is distinguished by this engine. -/
inductive EnvType
  | conda_only
  | pip_only
  | mixed
deriving DecidableEq

/-- The read-only face of a `ResolvedEnvironment` that the step decorator
consumes: its type and its ordered `(package_name, package_version)` list. -/
structure RefEnv where
  envType : EnvType
  packages : List (String × String)
deriving DecidableEq

/-- Error taxonomy: each constructor corresponds to one
`InvalidEnvironmentException` raise site of the source (or a `RuntimeError`). -/
inductive Err
  | unresolvedPlaceholder (var : String)
  | invalidConfig
  | noPythonInBase
  | multipleConda (names : List String)
  | multiplePip (names : List String)
  | conflictingKinds (condaName pipName : String)
  | pipBaseIncompatible (name : String)
  | condaBaseIncompatible (name : String)
  | indexError
deriving DecidableEq

/-! ## Name reference resolver: `sub_envvars_in_envname`

The source scans the name with the regex pattern of `@` followed by a braced
word (`re.findall`), deduplicates the found variables (`set(...)`; the model
keeps first-occurrence order, the Python set order is unspecified), and for
each variable substitutes `os.environ.get(envvar, addl_env.get(envvar))`,
raising when that lookup yields nothing. -/

/-- Left brace character, written via its code point. -/
def lbrace : Char := Char.ofNat 123

/-- Right brace character, written via its code point. -/
def rbrace : Char := Char.ofNat 125

/-- Python's regex `\w` class restricted to ASCII behaviour: alphanumeric or
underscore. -/
def isWordChar (c : Char) : Bool := c.isAlphanum || c == '_'

/-- Try to match the placeholder pattern (at sign, left brace, one or more
word characters, right brace) at the head of the character list; on success
return the variable name and the remaining characters. -/
def matchPlaceholder (cs : List Char) : Option (String × List Char) :=
  match cs with
  | a :: b :: rest =>
    if a == '@' && b == lbrace then
      let w := rest.takeWhile isWordChar
      match rest.dropWhile isWordChar with
      | c :: tail => if c == rbrace && !w.isEmpty then some (String.mk w, tail) else none
      | [] => none
    else none
  | _ => none

/-- Fuelled scan for all non-overlapping placeholder occurrences, mirroring
`re.findall` left-to-right scanning. -/
def findPlaceholdersFuel : Nat → List Char → List String
  | 0, _ => []
  | _, [] => []
  | fuel + 1, c :: cs =>
    match matchPlaceholder (c :: cs) with
    | some (w, tail) => w :: findPlaceholdersFuel fuel tail
    | none => findPlaceholdersFuel fuel cs

/-- All placeholder variable names occurring in a string, in scan order. -/
def findPlaceholders (s : String) : List String :=
  findPlaceholdersFuel s.toList.length s.toList

/-- Fuelled model of Python `str.replace`: replace every non-overlapping
occurrence of `pat` (non-empty in all uses) left to right. -/
def replaceAllFuel : Nat → List Char → List Char → List Char → List Char
  | 0, s, _, _ => s
  | _ + 1, [], _, _ => []
  | fuel + 1, c :: cs, pat, repl =>
    if pat.isPrefixOf (c :: cs) && !pat.isEmpty then
      repl ++ replaceAllFuel fuel ((c :: cs).drop pat.length) pat repl
    else
      c :: replaceAllFuel fuel cs pat repl

/-- String-level replace-all (model of Python `str.replace`). -/
def replaceStr (s pat repl : String) : String :=
  String.mk (replaceAllFuel s.toList.length s.toList pat.toList repl.toList)

/-- The literal placeholder text for a variable: at sign, left brace, the
variable, right brace. -/
def placeholderOf (v : String) : String :=
  "@" ++ String.mk [lbrace] ++ v ++ String.mk [rbrace]

/-- The replacement chosen for one variable:
`os.environ.get(envvar, addl_env.get(envvar))` — the process environment is
consulted first and the deferred-context map `addl_env` only if the variable
is absent from the process environment. -/
def resolvedValue (env addl : List (String × String)) (v : String) : Option String :=
  match List.lookup v env with
  | some r => some r
  | none => List.lookup v addl

/-- One loop iteration of `sub_envvars_in_envname`: substitute one variable
or fail with the unresolved-placeholder error. -/
def subStep (env addl : List (String × String)) (acc v : String) : Except Err String :=
  match resolvedValue env addl v with
  | some r => Except.ok (replaceStr acc (placeholderOf v) r)
  | none => Except.error (Err.unresolvedPlaceholder v)

/-- `CondaStepDecorator.sub_envvars_in_envname`: substitute each placeholder
variable found in `name` (deduplicated), failing if one resolves to nothing.
`env` models `os.environ`, `addl` models the `addl_env` deferred-context map
(with its callables already evaluated to strings). -/
def sub_envvars_in_envname (env addl : List (String × String)) (name : String) :
    Except Err String :=
  (findPlaceholders name).dedup.foldlM (subStep env addl) name

/-! ## Dictionary and source-list merging primitives -/

/-- Model of `d = dict(base); d.update(local)` on insertion-ordered string
dicts: keys already in `base` keep their position but take the `local` value,
and keys only in `local` are appended in `local` order.  (Python dicts have
unique keys; on duplicate-key lists the model uses first-binding lookup.) -/
def dictUpdate (base locl : List (String × String)) : List (String × String) :=
  base.map (fun p =>
    match List.lookup p.1 locl with
    | some v => (p.1, v)
    | none => p)
  ++ locl.filter (fun p => (List.lookup p.1 base).isNone)

/-- Modelled from the spec: `merge_dep_dicts`, imported by the source from
this repository's `utils` module, which is not among the sources here.  Per
the spec the pin-source entries "always form a floor" that user-declared
entries may not override, and user entries "layer additively on top for all
other keys". -/
def merge_dep_dicts (pin user : List (String × String)) : List (String × String) :=
  pin ++ user.filter (fun p => (List.lookup p.1 pin).isNone)

/-- Seen-set deduplication loop used by `_conda_channels`, `_pip_sources`:
walk the list, keep an element only when it was not seen before. -/
def dedupSeen (seen : List String) : List String → List String
  | [] => []
  | c :: cs => if c ∈ seen then dedupSeen seen cs else c :: dedupSeen (c :: seen) cs

/-- Fuelled form of the spec's description of source merging: the first
occurrence of each string keeps its position and every later duplicate is
dropped. -/
def keepFirstFuel : Nat → List String → List String
  | 0, _ => []
  | _, [] => []
  | fuel + 1, c :: cs => c :: keepFirstFuel fuel (cs.filter (fun x => x != c))

/-- Specification-side dedup: keep the first occurrence of each string. -/
def keepFirst (l : List String) : List String := keepFirstFuel l.length l

/-- The source merge used for conda channels and pip sources: deduplicated
concatenation of the local-layer list followed by the base-layer list. -/
def mergeSources (locl base : List String) : List String :=
  dedupSeen [] (locl ++ base)

/-! ## Attribute sets and attribute-layer resolution -/

/-- The `@conda` decorator attribute set (the `defaults` keys of
`CondaStepDecorator`); `None` sentinels become `Option`. -/
structure Attrs where
  name : Option String
  pathspec : Option String
  libraries : List (String × String)
  channels : List String
  pipPackages : List (String × String)
  pipSources : List String
  python : Option String
  fetchAtExec : Option Bool
  disabled : Option Bool
deriving DecidableEq

/-- The all-unset attribute set (`CondaStepDecorator.defaults`). -/
def Attrs.defaults : Attrs := ⟨none, none, [], [], [], [], none, none, none⟩

/-- Python truthiness for an optional string: `None` and the empty string are
falsy. -/
def truthyStr (o : Option String) : Bool :=
  match o with
  | some s => s != ""
  | none => false

/-- Python truthiness for an optional bool: only `True` is truthy. -/
def truthyBool (o : Option Bool) : Bool :=
  match o with
  | some b => b
  | none => false

/-- The UBF control-task context marker (`UBF_CONTROL`). -/
def UBF_CONTROL : String := "ubf_control"

/-- `CondaStepDecorator._self_disabled`: the explicit `disabled` attribute, or
implicitly-enabled (`False`) when any of name, pathspec, libraries,
pip_packages or python is set, else `None`. -/
def self_disabled (a : Attrs) : Option Bool :=
  match a.disabled with
  | some b => some b
  | none =>
    if truthyStr a.name || truthyStr a.pathspec || !a.libraries.isEmpty
        || !a.pipPackages.isEmpty || truthyStr a.python then
      some false
    else
      none

/-- `CondaStepDecorator.is_enabled`: false in the UBF control context,
otherwise the negation of the first non-`None` of the self-disabled state,
the base `disabled` attribute and `False`. -/
def is_enabled (a base : Attrs) (ubf_context : Option String) : Bool :=
  if ubf_context == some UBF_CONTROL then
    false
  else
    !(match self_disabled a with
      | some b => b
      | none =>
        match base.disabled with
        | some b => b
        | none => false)

/-- `CondaStepDecorator.is_fetch_at_exec`: false in the UBF control context,
otherwise the first non-`None` of the local flag, the base flag and `False`. -/
def is_fetch_at_exec (a base : Attrs) (ubf_context : Option String) : Bool :=
  if ubf_context == some UBF_CONTROL then
    false
  else
    match a.fetchAtExec with
    | some b => b
    | none =>
      match base.fetchAtExec with
      | some b => b
      | none => false

/-- The truthy-attributes-besides-the-reference test of `step_init`:
`any(v for k, v in attributes.items() if v and k not in (name, pathspec,
fetch_at_exec))`, written out over the fixed key set of `defaults`. -/
def hasOtherMeaningfulAttrs (a : Attrs) : Bool :=
  !a.libraries.isEmpty || !a.channels.isEmpty || !a.pipPackages.isEmpty
    || !a.pipSources.isEmpty || truthyStr a.python || truthyBool a.disabled

/-- The reference-exclusivity validation of `step_init`: declaring `name` or
`pathspec` together with any other truthy attribute raises
`InvalidEnvironmentException`. -/
def stepInitRefCheck (a : Attrs) : Except Err Unit :=
  if (truthyStr a.name || truthyStr a.pathspec) && hasOtherMeaningfulAttrs a then
    Except.error Err.invalidConfig
  else
    Except.ok ()

/-! ## Dependency merge engine -/

/-- External collaborators of the merge engine, passed explicitly:
`pinned` is `get_pinned_conda_libs` (at the fixed datastore type, as a
function of the python version), `canonVer` is the vendored
`canonicalize_version`, `extractBase` is `EnvsResolver.extract_info_from_base`
restricted to the two components the source uses (resolved deps and resolved
sources), and `normEntry` is the per-entry normalization the spec ascribes to
the registry's requirement-id computation. -/
structure Ext where
  pinned : String → List (String × String)
  canonVer : String → String
  extractBase : RefEnv → List TStr → List TStr → List TStr × List TStr
  normEntry : TStr → TStr

/-- Full configuration of one initialized decorator instance: local attribute
set, base attribute set (from `@conda_base`, or the defaults), the already
resolved reference environment if any, and the running interpreter version. -/
structure Cfg where
  attrs : Attrs
  base : Attrs
  fromEnv : Option RefEnv
  platformPython : String
deriving DecidableEq

/-- `CondaStepDecorator._from_env_python`: the version of the `python`
package of the reference environment; raises when a reference exists but
carries no `python` package. -/
def from_env_python (cfg : Cfg) : Except Err (Option String) :=
  match cfg.fromEnv with
  | none => Except.ok none
  | some fe =>
    match List.lookup "python" fe.packages with
    | some v => Except.ok (some v)
    | none => Except.error Err.noPythonInBase

/-- `CondaStepDecorator._python_version`: the first non-`None` of the local
`python` attribute, the base `python` attribute, the reference environment's
python version and the running interpreter version.  The source builds the
whole candidate list eagerly, so the reference lookup (and its possible
failure) happens even when an earlier candidate wins. -/
def python_version (cfg : Cfg) : Except Err String :=
  match from_env_python cfg with
  | Except.error e => Except.error e
  | Except.ok fp =>
    Except.ok
      (match cfg.attrs.python with
       | some v => v
       | none =>
         match cfg.base.python with
         | some v => v
         | none =>
           match fp with
           | some v => v
           | none => cfg.platformPython)

/-- The pinned/default conda dependencies (the `deps` local of
`_conda_deps` before user maps are merged in): pinned libs unless deriving
from a package-only reference. -/
def pinnedCondaDeps (ext : Ext) (cfg : Cfg) : Except Err (List (String × String)) :=
  match cfg.fromEnv with
  | some fe =>
    if fe.envType != EnvType.pip_only then
      match python_version cfg with
      | Except.error e => Except.error e
      | Except.ok pv => Except.ok (ext.pinned pv)
    else
      Except.ok []
  | none =>
    match python_version cfg with
    | Except.error e => Except.error e
    | Except.ok pv => Except.ok (ext.pinned pv)

/-- `CondaStepDecorator._conda_deps`: pinned/default dependencies merged (as
an un-overridable floor, via `merge_dep_dicts`) with the right-biased
base-then-local user library maps. -/
def conda_deps (ext : Ext) (cfg : Cfg) : Except Err (List (String × String)) :=
  match pinnedCondaDeps ext cfg with
  | Except.error e => Except.error e
  | Except.ok deps =>
    Except.ok (merge_dep_dicts deps (dictUpdate cfg.base.libraries cfg.attrs.libraries))

/-- `CondaStepDecorator._pip_deps`.  The source's pinned-dependency branch is
guarded by `self.from_env == EnvType.PIP_ONLY`, which compares the resolved
environment object itself (not its `env_type`) against an enum member and is
therefore never true, so the pinned part is always the empty dict. -/
def pip_deps (cfg : Cfg) : List (String × String) :=
  merge_dep_dicts [] (dictUpdate cfg.base.pipPackages cfg.attrs.pipPackages)

/-- `CondaStepDecorator._conda_channels`: local channels then base channels,
first occurrence kept. -/
def conda_channels (cfg : Cfg) : List String :=
  mergeSources cfg.attrs.channels cfg.base.channels

/-- `CondaStepDecorator._pip_sources`: local pip sources then base pip
sources, first occurrence kept. -/
def pip_sources (cfg : Cfg) : List String :=
  mergeSources cfg.attrs.pipSources cfg.base.pipSources

/-- Render one conda/npconda dependency entry: `name==version`, or the bare
name when the version string is empty. -/
def depEntry (n v : String) : String := if v = "" then n else n ++ "==" ++ v

/-- The memoization state of `_resolve_deps_sources`: the four resolved
component fields plus the inferred environment type, all `None` right after
`step_init`. -/
structure MemoState where
  nonBaseDeps : Option (List TStr)
  nonBaseSources : Option (List TStr)
  deps : Option (List TStr)
  sources : Option (List TStr)
  envType : Option EnvType
deriving DecidableEq

/-- Python truthiness of an optional list field: `None` and the empty list
are falsy. -/
def truthyList (o : Option (List TStr)) : Bool :=
  match o with
  | some (_ :: _) => true
  | _ => false

/-- The memo-validity test of `_resolve_deps_sources`:
`all([...])` over the four resolved fields, i.e. all four truthy. -/
def cacheValid (s : MemoState) : Bool :=
  truthyList s.nonBaseDeps && truthyList s.nonBaseSources
    && truthyList s.deps && truthyList s.sources

/-- The four-component result tuple of `_resolve_deps_sources`. -/
abbrev DepTuple := List TStr × List TStr × List TStr × List TStr

/-- The tuple stored in the memo fields. -/
def cachedTuple (s : MemoState) : DepTuple :=
  (s.nonBaseDeps.getD [], s.nonBaseSources.getD [], s.deps.getD [], s.sources.getD [])

/-- The state of a freshly initialized decorator instance. -/
def initState : MemoState := ⟨none, none, none, none, none⟩

/-- The computing path of `_resolve_deps_sources` (the part after the memo
check): build the non-base dependency list (conda entries, then the empty
npconda extension point, then pip entries, then — only without a reference —
the python interpreter pin), infer the environment type right after the conda
entries, build the non-base source list, and derive the effective lists
(delegated to `extract_info_from_base` when a reference is present). -/
def computeResolve (ext : Ext) (cfg : Cfg) : Except Err (DepTuple × Option EnvType) :=
  match conda_deps ext cfg with
  | Except.error e => Except.error e
  | Except.ok cd =>
    let nb1 : List TStr := cd.map (fun p => TStr.mk "conda" (depEntry p.1 p.2))
    let et : Option EnvType :=
      match cfg.fromEnv with
      | some fe =>
        if fe.envType = EnvType.pip_only ∧ nb1 = [] then some EnvType.pip_only else none
      | none => none
    let nb3 : List TStr := nb1 ++ (pip_deps cfg).map
      (fun p => TStr.mk "pip" (if p.2 = "" then p.1 else p.1 ++ "==" ++ ext.canonVer p.2))
    match
      (match cfg.fromEnv with
       | none =>
         match python_version cfg with
         | Except.error e => Except.error e
         | Except.ok pv =>
           Except.ok (nb3 ++ [TStr.mk "conda" ("python==" ++ ext.canonVer pv)])
       | some _ => Except.ok nb3) with
    | Except.error e => Except.error e
    | Except.ok nb4 =>
      let srcs : List TStr :=
        (conda_channels cfg).map (fun x => TStr.mk "conda" x)
          ++ (pip_sources cfg).map (fun x => TStr.mk "pip" x)
      match cfg.fromEnv with
      | some fe =>
        let pr := ext.extractBase fe nb4 srcs
        Except.ok ((nb4, srcs, pr.1, pr.2), et)
      | none => Except.ok ((nb4, srcs, nb4, srcs), et)

/-- `CondaStepDecorator._resolve_deps_sources`: return the memoized tuple
when all four fields are truthy, otherwise recompute and fill all four fields
(and the inferred environment type) at once. -/
def resolve_deps_sources (ext : Ext) (cfg : Cfg) (s : MemoState) :
    Except Err (DepTuple × MemoState) :=
  if cacheValid s then
    Except.ok (cachedTuple s, s)
  else
    match computeResolve ext cfg with
    | Except.error e => Except.error e
    | Except.ok (t, et) =>
      Except.ok (t, ⟨some t.1, some t.2.1, some t.2.2.1, some t.2.2.2, et⟩)

/-! ## Environment identity -/

/-- Sort key of a typed entry: the category's code points, a separator above
every code point, then the value's code points.  Injective, and ordering by
it is exactly ordering by (category, value). -/
def TStr.key (t : TStr) : List Nat :=
  t.category.data.map Char.toNat ++ [4294967296] ++ t.value.data.map Char.toNat

/-- Executable lexicographic order on lists of naturals. -/
def natListLe : List Nat → List Nat → Bool
  | [], _ => true
  | _ :: _, [] => false
  | a :: as, b :: bs => a < b || (a == b && natListLe as bs)

/-- Entry order used to sort the requirement fingerprint input. -/
def entryLE (a b : TStr) : Prop := natListLe a.key b.key = true

instance : DecidableRel entryLE := fun a b => decEq (natListLe a.key b.key) true

/-- Sort a list of typed entries by (category, value). -/
def sortEntries (l : List TStr) : List TStr := List.insertionSort entryLE l

/-- Modelled from the spec: `ResolvedEnvironment.get_req_id` (defined in
`env_descr`, which is not among the sources here).  Per the spec the
requirement id is a deterministic hash of the normalized dependency and
source entries sorted by (category, value); the hash is modelled by the
sorted normalized sequence itself, so two inputs receive equal ids exactly
when their normalized sorted sequences coincide. -/
def get_req_id (ext : Ext) (deps sources : List TStr) : List TStr :=
  sortEntries ((deps ++ sources).map ext.normEntry)

/-- The requirement-id component computed by `env_ids` (non-deferred branch):
`get_req_id(step_deps, source_deps)` over the effective dependency and source
lists of `_resolve_deps_sources`. -/
def reqIdOf (ext : Ext) (cfg : Cfg) (s : MemoState) : Except Err (List TStr) :=
  match resolve_deps_sources ext cfg s with
  | Except.error e => Except.error e
  | Except.ok (t, _) => Except.ok (get_req_id ext t.2.2.1 t.2.2.2)

/-! ## Decorator conflict resolver -/

/-- One conda-like decorator instance attached to a step: its object identity
(`id`, modelling Python object identity for list removal), its decorator
`name`, its `TYPE` kind tag and its user-authored flag. -/
structure Deco where
  id : Nat
  name : String
  TYPE : String
  statically_defined : Bool
deriving DecidableEq

/-- The per-kind survivors of the synthesized-duplicate cleanup: all
instances of the kind, reduced to the user-authored ones when there is more
than one. -/
def survivingOfKind (t : String) (decorators : List Deco) : List Deco :=
  let k := decorators.filter (fun d => d.TYPE == t)
  if k.length > 1 then k.filter (fun d => d.statically_defined) else k

/-- `CondaStepDecorator._resolve_pip_or_conda_deco`, as invoked from the gate
of the instance named `selfName`.  The model list carries only the conda-like
decorators of the step (the source filters the host list by `isinstance`).
Returns whether this instance survives, together with the (possibly pruned)
decorator list.  Mirrors the source faithfully, including the early return
when either kind has no instance and the overwrite (not extension) of the
removal list by the pip cleanup branch. -/
def resolve_pip_or_conda_deco (selfName : String) (hasPipBase hasCondaBase : Bool)
    (decorators : List Deco) : Except Err (Bool × List Deco) :=
  match decorators.getLast? with
  | none => Except.error Err.indexError
  | some last_deco =>
    let conda_decs0 := decorators.filter (fun d => d.TYPE == "conda")
    let pip_decs0 := decorators.filter (fun d => d.TYPE == "pip")
    let to_remove1 : List Deco :=
      if conda_decs0.length > 1 then conda_decs0.filter (fun d => !d.statically_defined)
      else []
    let conda_decs := survivingOfKind "conda" decorators
    let to_remove : List Deco :=
      if pip_decs0.length > 1 then pip_decs0.filter (fun d => !d.statically_defined)
      else to_remove1
    let pip_decs := survivingOfKind "pip" decorators
    if conda_decs.length == 0 || pip_decs.length == 0 then
      Except.ok (true, decorators)
    else if conda_decs.length > 1 then
      Except.error (Err.multipleConda (conda_decs.map Deco.name))
    else if pip_decs.length > 1 then
      Except.error (Err.multiplePip (pip_decs.map Deco.name))
    else
      match conda_decs, pip_decs with
      | conda_deco :: _, pip_deco :: _ =>
        if conda_deco.statically_defined && pip_deco.statically_defined then
          Except.error (Err.conflictingKinds conda_deco.name pip_deco.name)
        else if hasPipBase && conda_deco.statically_defined then
          Except.error (Err.pipBaseIncompatible conda_deco.name)
        else if hasCondaBase && pip_deco.statically_defined then
          Except.error (Err.condaBaseIncompatible pip_deco.name)
        else
          let del_deco := if pip_deco.statically_defined || hasPipBase then conda_deco
            else pip_deco
          let to_remove2 := to_remove ++ [del_deco]
          let decorators' :=
            if selfName == last_deco.name then
              to_remove2.foldl (fun acc d => acc.erase d) decorators
            else decorators
          Except.ok (!(to_remove2.map Deco.name).contains selfName, decorators')
      | _, _ => Except.error Err.indexError

/-! ## Concrete fixtures used to evaluate the model on explicit inputs -/

/-- A trivial instantiation of the external collaborators: empty pin source,
identity canonicalizer, an extractor that keeps the step's own lists, and
identity entry normalization. -/
def ext0 : Ext := ⟨fun _ => [], id, fun _ d s => (d, s), id⟩

/-- A package-only reference environment carrying a python 3.9 package. -/
def feP : RefEnv := ⟨EnvType.pip_only, [("python", "3.9")]⟩

/-- A configuration deriving from the package-only reference and declaring
one user conda library. -/
def cfg7 : Cfg :=
  ⟨⟨none, none, [("numpy", "1.2")], [], [], [], none, none, none⟩,
    Attrs.defaults, some feP, "3.11.2"⟩

/-- A configuration deriving from the package-only reference and declaring
nothing else. -/
def cfg7b : Cfg := ⟨Attrs.defaults, Attrs.defaults, some feP, "3.11.2"⟩

/-- A memo state with all four resolved fields truthy. -/
def sV : MemoState :=
  ⟨some [TStr.mk "conda" "a"], some [TStr.mk "conda" "b"],
    some [TStr.mk "conda" "a"], some [TStr.mk "conda" "b"], none⟩

/-- A user-authored conda-kind decorator instance. -/
def decoCondaUser : Deco := ⟨0, "conda", "conda", true⟩

/-- A second user-authored conda-kind decorator instance. -/
def decoCondaUser2 : Deco := ⟨1, "conda", "conda", true⟩

/-- A tooling-synthesized pip-kind decorator instance. -/
def decoPipSynth : Deco := ⟨2, "pip", "pip", false⟩

/-- A user-authored pip-kind decorator instance. -/
def decoPipUser : Deco := ⟨3, "pip", "pip", true⟩

/-- A second user-authored pip-kind decorator instance. -/
def decoPipUser2 : Deco := ⟨4, "pip", "pip", true⟩

/-- A configuration with no reference and two declared conda libraries,
channels, pip packages and pip sources. -/
def cfgA : Cfg :=
  ⟨⟨none, none, [("a", "1"), ("b", "2")], ["c1", "c2"], [("p", "3")], ["s1"],
    some "3.9", none, none⟩, Attrs.defaults, none, "3.11.2"⟩

/-- The same configuration as `cfgA` with the declared entry lists permuted. -/
def cfgB : Cfg :=
  ⟨⟨none, none, [("b", "2"), ("a", "1")], ["c2", "c1"], [("p", "3")], ["s1"],
    some "3.9", none, none⟩, Attrs.defaults, none, "3.11.2"⟩

end MetaflowConda

namespace MetaflowConda

/-! ## Helper lemmas -/

theorem exceptBind_ok {ε α β : Type} (a : α) (f : α → Except ε β) :
    (Except.ok a : Except ε α) >>= f = f a := rfl

theorem exceptBind_err {ε α β : Type} (e : ε) (f : α → Except ε β) :
    (Except.error e : Except ε α) >>= f = Except.error e := rfl

theorem foldlM_subStep_ok (env addl : List (String × String)) :
    ∀ (vars : List String) (acc : String),
      (∀ v ∈ vars, (resolvedValue env addl v).isSome) →
      ∃ r, vars.foldlM (subStep env addl) acc = Except.ok r := by
  intro vars
  induction vars with
  | nil => intro acc _; exact ⟨acc, rfl⟩
  | cons v vs ih =>
    intro acc h
    have hv := h v (List.mem_cons_self v vs)
    obtain ⟨r, hr⟩ := Option.isSome_iff_exists.mp hv
    have : subStep env addl acc v = Except.ok (replaceStr acc (placeholderOf v) r) := by
      simp [subStep, hr]
    rw [List.foldlM_cons, this, exceptBind_ok]
    exact ih _ (fun w hw => h w (List.mem_cons_of_mem v hw))

theorem foldlM_subStep_err (env addl : List (String × String)) :
    ∀ (vars : List String) (acc : String),
      (∃ v ∈ vars, resolvedValue env addl v = none) →
      ∃ e, vars.foldlM (subStep env addl) acc = Except.error e := by
  intro vars
  induction vars with
  | nil => intro acc h; simp at h
  | cons v vs ih =>
    intro acc h
    cases hv : resolvedValue env addl v with
    | none =>
      have : subStep env addl acc v = Except.error (Err.unresolvedPlaceholder v) := by
        simp [subStep, hv]
      rw [List.foldlM_cons, this, exceptBind_err]
      exact ⟨_, rfl⟩
    | some r =>
      obtain ⟨w, hw, hwn⟩ := h
      have hwvs : w ∈ vs := by
        rcases List.mem_cons.mp hw with rfl | hm
        · rw [hv] at hwn; cases hwn
        · exact hm
      have : subStep env addl acc v = Except.ok (replaceStr acc (placeholderOf v) r) := by
        simp [subStep, hv]
      rw [List.foldlM_cons, this, exceptBind_ok]
      exact ih _ ⟨w, hwvs, hwn⟩

/-! ## C1: placeholder substitution -/

/-- C1 (counterexample): the claim says that when both a deferred-context
value and a process environment variable exist for `RUN` with different
values, the deferred-context value (`DEFVAL`) is used.  The code uses
`os.environ.get(envvar, addl_env.get(envvar))`, so the process environment
value `ENVVAL` wins instead. -/
theorem c1_counterexample :
    sub_envvars_in_envname [("RUN", "ENVVAL")] [("RUN", "DEFVAL")] (placeholderOf "RUN")
        ≠ Except.ok "DEFVAL"
      ∧ sub_envvars_in_envname [("RUN", "ENVVAL")] [("RUN", "DEFVAL")] (placeholderOf "RUN")
        = Except.ok "ENVVAL"
      ∧ List.lookup "RUN" [("RUN", "DEFVAL")] = some "DEFVAL" := by
  refine ⟨?_, by decide, by decide⟩
  intro h
  have : ("ENVVAL" : String) = "DEFVAL" := Except.ok.inj ((by decide : _ = Except.ok "ENVVAL").symm.trans h)
  exact absurd this (by decide)

/-- C1 (amended): for every symbolic reference string, each placeholder
variable is substituted with, in order of preference, (1) the process
environment variable named VAR if present, and only otherwise (2) the
supplied deferred-context value keyed by VAR; substitution succeeds when
every variable appearing in the string resolves to one of the two, and fails
with the unresolved-placeholder error when some variable resolves to
neither. -/
theorem c1_amended (env addl : List (String × String)) (nm : String) :
    (∀ v a b, List.lookup v env = some a → List.lookup v addl = some b →
      resolvedValue env addl v = some a)
    ∧ ((∀ v ∈ findPlaceholders nm, (resolvedValue env addl v).isSome) →
      ∃ r, sub_envvars_in_envname env addl nm = Except.ok r)
    ∧ ((∃ v ∈ findPlaceholders nm, resolvedValue env addl v = none) →
      ∃ e, sub_envvars_in_envname env addl nm = Except.error e) := by
  refine ⟨?_, ?_, ?_⟩
  · intro v a b ha _
    simp [resolvedValue, ha]
  · intro h
    exact foldlM_subStep_ok env addl _ nm
      (fun v hv => h v (List.mem_dedup.mp hv))
  · intro ⟨v, hv, hn⟩
    exact foldlM_subStep_err env addl _ nm ⟨v, List.mem_dedup.mpr hv, hn⟩

/-- C1 (witness): the spec's own example — substituting the single-variable
reference with deferred-context value `17` and no process environment
succeeds. -/
theorem c1_witness :
    ∃ r, sub_envvars_in_envname [] [("RUN", "17")] (placeholderOf "RUN") = Except.ok r :=
  (c1_amended [] [("RUN", "17")] (placeholderOf "RUN")).2.1 (by decide)

/-! ## C6: user dependency-map merge -/

theorem lookup_append (k : String) (xs ys : List (String × String)) :
    List.lookup k (xs ++ ys)
      = match List.lookup k xs with
        | some v => some v
        | none => List.lookup k ys := by
  induction xs with
  | nil => simp [List.lookup]
  | cons p ps ih =>
    obtain ⟨a, b⟩ := p
    by_cases h : k = a
    · simp [List.lookup, h]
    · have hb : (k == a) = false := beq_eq_false_iff_ne.mpr h
      simp [List.lookup, hb, ih]

theorem lookup_map_override (k : String) (base locl : List (String × String)) :
    List.lookup k (base.map (fun p =>
        match List.lookup p.1 locl with
        | some v => (p.1, v)
        | none => p))
      = match List.lookup k base with
        | none => none
        | some w =>
          match List.lookup k locl with
          | some v => some v
          | none => some w := by
  induction base with
  | nil => simp [List.lookup]
  | cons p ps ih =>
    obtain ⟨a, b⟩ := p
    by_cases h : k = a
    · subst h
      cases hl : List.lookup k locl with
      | none => simp [List.lookup, hl]
      | some v => simp [List.lookup, hl]
    · have hb : (k == a) = false := beq_eq_false_iff_ne.mpr h
      cases hl : List.lookup a locl with
      | none => simp [List.lookup, hl, hb, ih]
      | some v => simp [List.lookup, hl, hb, ih]

theorem lookup_filter_of_keys (k : String) (l : List (String × String))
    (g : String × String → Bool) (hg : ∀ p ∈ l, p.1 = k → g p = true) :
    List.lookup k (l.filter g) = List.lookup k l := by
  induction l with
  | nil => simp
  | cons p ps ih =>
    obtain ⟨a, b⟩ := p
    by_cases h : k = a
    · have hga : g (a, b) = true := hg (a, b) (List.mem_cons_self (a, b) ps) h.symm
      simp [List.filter_cons, hga, List.lookup, h]
    · have hb : (k == a) = false := beq_eq_false_iff_ne.mpr h
      cases hgp : g (a, b) with
      | true =>
        simp [List.filter_cons, hgp, List.lookup, hb,
          ih (fun q hq hqk => hg q (List.mem_cons_of_mem (a, b) hq) hqk)]
      | false =>
        simp [List.filter_cons, hgp, List.lookup, hb,
          ih (fun q hq hqk => hg q (List.mem_cons_of_mem (a, b) hq) hqk)]

/-- C6: in the user-declared dependency-map merge
(`dict(base); d.update(local)` inside `_conda_deps` and `_pip_deps`), a
local-layer key always overrides a base-layer key of the same name, and every
base-layer key absent from the local layer keeps its base-layer value. -/
theorem c6_user_map_merge (base locl : List (String × String)) (k : String) :
    (∀ v, List.lookup k locl = some v → List.lookup k (dictUpdate base locl) = some v)
    ∧ (List.lookup k locl = none →
      List.lookup k (dictUpdate base locl) = List.lookup k base) := by
  constructor
  · intro v hv
    rw [dictUpdate, lookup_append, lookup_map_override]
    cases hb : List.lookup k base with
    | some w => simp [hv]
    | none =>
      have : List.lookup k (locl.filter (fun p => (List.lookup p.1 base).isNone))
          = List.lookup k locl := by
        apply lookup_filter_of_keys
        intro p _ hpk
        rw [hpk, hb]
        rfl
      simp [this, hv]
  · intro hv
    rw [dictUpdate, lookup_append, lookup_map_override]
    cases hb : List.lookup k base with
    | some w => simp [hv]
    | none =>
      have : List.lookup k (locl.filter (fun p => (List.lookup p.1 base).isNone))
          = List.lookup k locl := by
        apply lookup_filter_of_keys
        intro p _ hpk
        rw [hpk, hb]
        rfl
      simp [this, hv]

/-- C6 (witness): a key declared in both layers takes the local value, and a
base-only key is preserved. -/
theorem c6_witness :
    List.lookup "numpy" (dictUpdate [("numpy", "1.2"), ("scipy", "1.0")] [("numpy", "2.0")])
      = some "2.0"
    ∧ List.lookup "scipy" (dictUpdate [("numpy", "1.2"), ("scipy", "1.0")] [("numpy", "2.0")])
      = List.lookup "scipy" [("numpy", "1.2"), ("scipy", "1.0")] :=
  ⟨(c6_user_map_merge [("numpy", "1.2"), ("scipy", "1.0")] [("numpy", "2.0")] "numpy").1
      "2.0" (by decide),
    (c6_user_map_merge [("numpy", "1.2"), ("scipy", "1.0")] [("numpy", "2.0")] "scipy").2
      (by decide)⟩

end MetaflowConda

namespace MetaflowConda

/-! ## C8: source-list merging -/

theorem keepFirstFuel_fuel_irrel :
    ∀ (n m : Nat) (l : List String), l.length ≤ n → l.length ≤ m →
      keepFirstFuel n l = keepFirstFuel m l := by
  intro n
  induction n with
  | zero =>
    intro m l hn _
    have : l = [] := List.eq_nil_of_length_eq_zero (Nat.le_zero.mp hn)
    subst this
    cases m <;> rfl
  | succ n ih =>
    intro m l hn hm
    cases l with
    | nil => cases m <;> rfl
    | cons c cs =>
      cases m with
      | zero => simp at hm
      | succ m =>
        have hlen := List.length_filter_le (fun x => x != c) cs
        simp only [keepFirstFuel]
        rw [ih m _ (le_trans hlen (Nat.lt_succ_iff.mp hn))
          (le_trans hlen (Nat.lt_succ_iff.mp hm))]

theorem keepFirst_cons (c : String) (cs : List String) :
    keepFirst (c :: cs) = c :: keepFirst (cs.filter (fun x => x != c)) := by
  show keepFirstFuel (c :: cs).length (c :: cs) = _
  simp only [List.length_cons, keepFirstFuel]
  rw [keepFirstFuel_fuel_irrel cs.length _ _ (List.length_filter_le _ _) le_rfl]
  rfl

theorem dedupSeen_eq_keepFirst :
    ∀ (l seen : List String),
      dedupSeen seen l = keepFirst (l.filter (fun x => decide (x ∉ seen))) := by
  intro l
  induction l with
  | nil => intro seen; rfl
  | cons c cs ih =>
    intro seen
    by_cases hm : c ∈ seen
    · rw [dedupSeen, if_pos hm, ih seen, List.filter_cons]
      simp [hm]
    · have hfilter : cs.filter (fun x => decide (x ∉ c :: seen))
          = (cs.filter (fun x => decide (x ∉ seen))).filter (fun x => x != c) := by
        rw [List.filter_filter]
        apply List.filter_congr
        intro x _
        by_cases h1 : x = c <;> by_cases h2 : x ∈ seen <;> simp [h1, h2, bne]
      rw [dedupSeen, if_neg hm, ih (c :: seen), hfilter, List.filter_cons]
      simp only [decide_eq_true_eq, decide_not]
      rw [if_pos (by simpa using hm)]
      rw [keepFirst_cons]

theorem mem_dedupSeen :
    ∀ (l seen : List String) (x : String),
      x ∈ dedupSeen seen l ↔ (x ∈ l ∧ x ∉ seen) := by
  intro l
  induction l with
  | nil => intro seen x; simp [dedupSeen]
  | cons c cs ih =>
    intro seen x
    by_cases hm : c ∈ seen
    · rw [dedupSeen, if_pos hm, ih]
      constructor
      · rintro ⟨h1, h2⟩; exact ⟨List.mem_cons_of_mem c h1, h2⟩
      · rintro ⟨h1, h2⟩
        rcases List.mem_cons.mp h1 with rfl | h1
        · exact absurd hm h2
        · exact ⟨h1, h2⟩
    · rw [dedupSeen, if_neg hm, List.mem_cons, ih]
      simp only [List.mem_cons, not_or]
      constructor
      · rintro (rfl | ⟨h1, h2, h3⟩)
        · exact ⟨Or.inl rfl, hm⟩
        · exact ⟨Or.inr h1, h3⟩
      · rintro ⟨rfl | h1, h2⟩
        · exact Or.inl rfl
        · by_cases hxc : x = c
          · exact Or.inl hxc
          · exact Or.inr ⟨h1, hxc, h2⟩

theorem nodup_dedupSeen : ∀ (l seen : List String), (dedupSeen seen l).Nodup := by
  intro l
  induction l with
  | nil => intro seen; simp [dedupSeen]
  | cons c cs ih =>
    intro seen
    by_cases hm : c ∈ seen
    · rw [dedupSeen, if_pos hm]; exact ih seen
    · rw [dedupSeen, if_neg hm]
      refine List.Nodup.cons ?_ (ih (c :: seen))
      intro hmem
      have := (mem_dedupSeen cs (c :: seen) c).mp hmem
      exact this.2 (List.mem_cons_self c seen)

theorem sublist_dedupSeen : ∀ (l seen : List String), List.Sublist (dedupSeen seen l) l := by
  intro l
  induction l with
  | nil => intro seen; simp [dedupSeen]
  | cons c cs ih =>
    intro seen
    by_cases hm : c ∈ seen
    · rw [dedupSeen, if_pos hm]; exact List.Sublist.cons c (ih seen)
    · rw [dedupSeen, if_neg hm]; exact List.Sublist.cons₂ c (ih (c :: seen))

/-- C8: the merged source list (`_conda_channels` / `_pip_sources`) is the
order-preserving deduplicated concatenation of the local-layer list followed
by the base-layer list: it equals the keep-first-occurrence dedup of
`local ++ base`, it is duplicate-free, it is an order-preserving
subsequence of `local ++ base`, and it keeps exactly the set of entries of
`local ++ base` (pure union, nothing overridden or removed beyond
deduplication). -/
theorem c8_source_merge (locl base : List String) :
    mergeSources locl base = keepFirst (locl ++ base)
    ∧ (∀ x, x ∈ mergeSources locl base ↔ x ∈ locl ++ base)
    ∧ (mergeSources locl base).Nodup
    ∧ List.Sublist (mergeSources locl base) (locl ++ base) := by
  refine ⟨?_, ?_, nodup_dedupSeen _ _, sublist_dedupSeen _ _⟩
  · rw [mergeSources, dedupSeen_eq_keepFirst]
    congr 1
    have : ∀ x ∈ locl ++ base, (decide (x ∉ ([] : List String))) = true := by
      intro x _; simp
    rw [List.filter_congr this, List.filter_true]
  · intro x
    rw [mergeSources, mem_dedupSeen]
    simp

/-! ## C9: reference-exclusivity validation -/

/-- C9: `step_init` fails with the invalid-configuration error exactly when a
symbolic reference (truthy `name` or `pathspec`) is declared together with
some other truthy attribute among libraries, channels, pip_packages,
pip_sources, python and disabled (`fetch_at_exec` excepted); in particular a
decorator declaring only a reference, and optionally the deferred flag,
passes this validation. -/
theorem c9_ref_exclusivity (a : Attrs) :
    (stepInitRefCheck a = Except.error Err.invalidConfig ↔
      ((truthyStr a.name = true ∨ truthyStr a.pathspec = true) ∧
        (a.libraries ≠ [] ∨ a.channels ≠ [] ∨ a.pipPackages ≠ [] ∨ a.pipSources ≠ []
          ∨ truthyStr a.python = true ∨ a.disabled = some true)))
    ∧ (a.libraries = [] → a.channels = [] → a.pipPackages = [] → a.pipSources = [] →
      a.python = none → a.disabled = none → stepInitRefCheck a = Except.ok ()) := by
  constructor
  · rw [stepInitRefCheck]
    by_cases h : ((truthyStr a.name || truthyStr a.pathspec) && hasOtherMeaningfulAttrs a) = true
    · rw [if_pos h]
      simp only [Bool.and_eq_true, Bool.or_eq_true] at h
      constructor
      · intro _
        refine ⟨h.1, ?_⟩
        have h2 := h.2
        rw [hasOtherMeaningfulAttrs] at h2
        simp only [Bool.or_eq_true, Bool.not_eq_true', List.isEmpty_eq_false] at h2
        rcases h2 with ((((h2 | h2) | h2) | h2) | h2) | h2
        · exact Or.inl h2
        · exact Or.inr (Or.inl h2)
        · exact Or.inr (Or.inr (Or.inl h2))
        · exact Or.inr (Or.inr (Or.inr (Or.inl h2)))
        · exact Or.inr (Or.inr (Or.inr (Or.inr (Or.inl h2))))
        · refine Or.inr (Or.inr (Or.inr (Or.inr (Or.inr ?_))))
          cases hd : a.disabled with
          | none => rw [hd] at h2; simp [truthyBool] at h2
          | some b =>
            rw [hd] at h2
            simp only [truthyBool] at h2
            rw [h2]
      · intro _; rfl
    · rw [if_neg h]
      constructor
      · intro hcontra; cases hcontra
      · intro ⟨h1, h2⟩
        exfalso
        apply h
        simp only [Bool.and_eq_true, Bool.or_eq_true]
        refine ⟨h1, ?_⟩
        rw [hasOtherMeaningfulAttrs]
        simp only [Bool.or_eq_true, Bool.not_eq_true', List.isEmpty_eq_false]
        rcases h2 with h2 | h2 | h2 | h2 | h2 | h2
        · exact Or.inl (Or.inl (Or.inl (Or.inl (Or.inl h2))))
        · exact Or.inl (Or.inl (Or.inl (Or.inl (Or.inr h2))))
        · exact Or.inl (Or.inl (Or.inl (Or.inr h2)))
        · exact Or.inl (Or.inl (Or.inr h2))
        · exact Or.inl (Or.inr h2)
        · refine Or.inr ?_
          rw [h2]
          simp [truthyBool]
  · intro h1 h2 h3 h4 h5 h6
    rw [stepInitRefCheck, if_neg]
    simp [hasOtherMeaningfulAttrs, h1, h2, h3, h4, h5, h6, truthyStr, truthyBool]

/-- C9 (witness): the spec's example — a name together with a library map is
rejected, while a bare named reference with the deferred flag passes. -/
theorem c9_witness :
    stepInitRefCheck ⟨some "foo", none, [("numpy", "1.2")], [], [], [], none, none, none⟩
      = Except.error Err.invalidConfig
    ∧ stepInitRefCheck ⟨some "foo", none, [], [], [], [], none, some true, none⟩
      = Except.ok () :=
  ⟨(c9_ref_exclusivity ⟨some "foo", none, [("numpy", "1.2")], [], [], [], none, none, none⟩).1.mpr
      (by decide),
    (c9_ref_exclusivity ⟨some "foo", none, [], [], [], [], none, some true, none⟩).2
      rfl rfl rfl rfl rfl rfl⟩

/-! ## C10: UBF control context -/

/-- C10: in the UBF control context both `is_enabled` and `is_fetch_at_exec`
return false, for every local and base attribute set. -/
theorem c10_ubf_control (a base : Attrs) :
    is_enabled a base (some UBF_CONTROL) = false
    ∧ is_fetch_at_exec a base (some UBF_CONTROL) = false := by
  constructor <;> rfl

end MetaflowConda

namespace MetaflowConda

/-! ## C2: memoization of the dependency merge -/

theorem isSome_of_truthyList (o : Option (List TStr)) (h : truthyList o = true) :
    o.isSome := by
  cases o with
  | none => simp [truthyList] at h
  | some l => rfl

theorem resolve_not_cached (ext : Ext) (cfg : Cfg) (s : MemoState)
    (h : cacheValid s = false) :
    resolve_deps_sources ext cfg s
      = match computeResolve ext cfg with
        | Except.error e => Except.error e
        | Except.ok (t, et) =>
          Except.ok (t, ⟨some t.1, some t.2.1, some t.2.2.1, some t.2.2.2, et⟩) := by
  rw [resolve_deps_sources, if_neg]
  simp [h]

/-- C2: `_resolve_deps_sources` is memoized with an all-or-nothing fill.
When the memo is valid (all four fields truthy) the call returns the cached
tuple and leaves the state untouched, with all four fields present; when the
memo is invalid, a successful call stores exactly the returned tuple and
fills all four fields at once; and a second call after any successful call
returns a tuple identical to the first (idempotence of the result). -/
theorem c2_resolve_memoized (ext : Ext) (cfg : Cfg) (s : MemoState) :
    (cacheValid s = true → resolve_deps_sources ext cfg s = Except.ok (cachedTuple s, s))
    ∧ (cacheValid s = true →
        s.nonBaseDeps.isSome ∧ s.nonBaseSources.isSome ∧ s.deps.isSome ∧ s.sources.isSome)
    ∧ (∀ r1 s1, cacheValid s = false →
        resolve_deps_sources ext cfg s = Except.ok (r1, s1) →
        cachedTuple s1 = r1 ∧ s1.nonBaseDeps.isSome ∧ s1.nonBaseSources.isSome
          ∧ s1.deps.isSome ∧ s1.sources.isSome)
    ∧ (∀ r1 s1 r2 s2, resolve_deps_sources ext cfg s = Except.ok (r1, s1) →
        resolve_deps_sources ext cfg s1 = Except.ok (r2, s2) → r2 = r1) := by
  have hcached : cacheValid s = true →
      resolve_deps_sources ext cfg s = Except.ok (cachedTuple s, s) := by
    intro h
    rw [resolve_deps_sources, if_pos h]
  have hfill : ∀ r1 s1, cacheValid s = false →
      resolve_deps_sources ext cfg s = Except.ok (r1, s1) →
      cachedTuple s1 = r1 ∧ s1.nonBaseDeps.isSome ∧ s1.nonBaseSources.isSome
        ∧ s1.deps.isSome ∧ s1.sources.isSome := by
    intro r1 s1 h heq
    rw [resolve_not_cached ext cfg s h] at heq
    cases hcr : computeResolve ext cfg with
    | error e => rw [hcr] at heq; cases heq
    | ok te =>
      obtain ⟨t, et⟩ := te
      rw [hcr] at heq
      rw [Except.ok.injEq, Prod.mk.injEq] at heq
      obtain ⟨hr, hs⟩ := heq
      subst hr
      subst hs
      exact ⟨rfl, rfl, rfl, rfl, rfl⟩
  refine ⟨hcached, ?_, hfill, ?_⟩
  · intro h
    rw [cacheValid] at h
    simp only [Bool.and_eq_true] at h
    exact ⟨isSome_of_truthyList _ h.1.1.1, isSome_of_truthyList _ h.1.1.2,
      isSome_of_truthyList _ h.1.2, isSome_of_truthyList _ h.2⟩
  · intro r1 s1 r2 s2 h1 h2
    cases hv : cacheValid s with
    | true =>
      rw [hcached hv] at h1
      rw [Except.ok.injEq, Prod.mk.injEq] at h1
      obtain ⟨hr1, hs1⟩ := h1
      subst hs1
      rw [hcached hv] at h2
      rw [Except.ok.injEq, Prod.mk.injEq] at h2
      rw [← h2.1, ← hr1]
    | false =>
      have h1' := h1
      rw [resolve_not_cached ext cfg s hv] at h1'
      cases hcr : computeResolve ext cfg with
      | error e => rw [hcr] at h1'; cases h1'
      | ok te =>
        obtain ⟨t, et⟩ := te
        rw [hcr] at h1'
        rw [Except.ok.injEq, Prod.mk.injEq] at h1'
        obtain ⟨hr1, hs1⟩ := h1'
        subst hr1
        cases hv1 : cacheValid s1 with
        | true =>
          have : resolve_deps_sources ext cfg s1 = Except.ok (cachedTuple s1, s1) := by
            rw [resolve_deps_sources, if_pos hv1]
          rw [this] at h2
          rw [Except.ok.injEq, Prod.mk.injEq] at h2
          rw [← h2.1, ← hs1]
          rfl
        | false =>
          rw [resolve_not_cached ext cfg s1 hv1, hcr] at h2
          rw [Except.ok.injEq, Prod.mk.injEq] at h2
          exact h2.1.symm

/-- C2 (witness): with a fully truthy memo state the call returns the cached
tuple unchanged, and the memoized fields are all present. -/
theorem c2_witness :
    resolve_deps_sources ext0 cfg7 sV = Except.ok (cachedTuple sV, sV)
    ∧ sV.nonBaseDeps.isSome := by
  refine ⟨(c2_resolve_memoized ext0 cfg7 sV).1 (by decide),
    ((c2_resolve_memoized ext0 cfg7 sV).2.1 (by decide)).1⟩

/-! ## C7: environment-type inference -/

/-- C7 (counterexample): the claim says the environment type is
`PACKAGE_ONLY` whenever the step derives from a `PACKAGE_ONLY` reference and
the pin/default step added no conda entries.  Here the reference is
package-only and the pin step contributed nothing, yet a user-declared conda
library makes the code leave the environment type unset. -/
theorem c7_counterexample :
    (resolve_deps_sources ext0 cfg7 initState).map (fun p => (p.2).envType)
      = Except.ok none
    ∧ pinnedCondaDeps ext0 cfg7 = Except.ok []
    ∧ cfg7.fromEnv = some feP
    ∧ feP.envType = EnvType.pip_only := by
  exact ⟨by decide, by decide, rfl, rfl⟩

/-- C7 (amended): after a fresh resolution, the inferred environment type is
`PACKAGE_ONLY` if and only if the step derives from a reference of type
`PACKAGE_ONLY` and the full conda dependency map (pinned/default entries
merged with the user-declared base and step conda libraries) is empty; in
every other case the environment type is unset. -/
theorem c7_amended (ext : Ext) (cfg : Cfg) (r : DepTuple) (s' : MemoState)
    (h : resolve_deps_sources ext cfg initState = Except.ok (r, s')) :
    s'.envType = some EnvType.pip_only ↔
      ((∃ fe, cfg.fromEnv = some fe ∧ fe.envType = EnvType.pip_only)
        ∧ conda_deps ext cfg = Except.ok []) := by
  rw [resolve_not_cached ext cfg initState rfl] at h
  cases hcd : conda_deps ext cfg with
  | error e =>
    rw [computeResolve.eq_def, hcd] at h
    cases h
  | ok cd =>
    cases hfe : cfg.fromEnv with
    | some fe =>
      rw [computeResolve.eq_def, hcd] at h
      simp only [hfe] at h
      rw [Except.ok.injEq, Prod.mk.injEq] at h
      obtain ⟨_, hs⟩ := h
      subst hs
      simp only [MemoState.envType]
      constructor
      · intro het
        by_cases hcond : fe.envType = EnvType.pip_only
            ∧ cd.map (fun p => TStr.mk "conda" (depEntry p.1 p.2)) = []
        · have hnil : cd = [] := List.map_eq_nil_iff.mp hcond.2
          exact ⟨⟨fe, rfl, hcond.1⟩, by rw [hnil]⟩
        · rw [if_neg hcond] at het
          cases het
      · rintro ⟨⟨fe', hfe', hty⟩, hok⟩
        obtain rfl : fe = fe' := Option.some.inj hfe'
        have hnil : cd = [] := Except.ok.inj hok
        rw [if_pos ⟨hty, by rw [hnil]; rfl⟩]
    | none =>
      have hpv : ∃ pv, python_version cfg = Except.ok pv := by
        rw [python_version.eq_def, from_env_python.eq_def, hfe]
        exact ⟨_, rfl⟩
      obtain ⟨pv, hpv⟩ := hpv
      rw [computeResolve.eq_def, hcd] at h
      simp only [hfe, hpv] at h
      rw [Except.ok.injEq, Prod.mk.injEq] at h
      obtain ⟨_, hs⟩ := h
      subst hs
      simp only [MemoState.envType]
      constructor
      · intro het; cases het
      · rintro ⟨⟨fe', hfe', _⟩, _⟩
        exact Option.noConfusion hfe'

/-- C7 (witness): with a package-only reference and no conda dependencies at
all, the inferred environment type is `PACKAGE_ONLY`. -/
theorem c7_witness :
    MemoState.envType ⟨some [], some [], some [], some [], some EnvType.pip_only⟩
      = some EnvType.pip_only :=
  (c7_amended ext0 cfg7b ([], [], [], [])
      ⟨some [], some [], some [], some [], some EnvType.pip_only⟩ (by decide)).mpr
    ⟨⟨feP, rfl, rfl⟩, by decide⟩

end MetaflowConda

namespace MetaflowConda

/-! ## C3: multiple decorators of the same kind -/

/-- C3 (counterexample): two user-authored conda-kind decorators with no
pip-kind instance attached.  The claim says conflict resolution must fail
with the multiple-conflicting-decorators error regardless of the other kind;
the code's early return (taken when either kind has zero instances) makes the
gate succeed instead. -/
theorem c3_counterexample :
    resolve_pip_or_conda_deco "conda" false false [decoCondaUser, decoCondaUser2]
      = Except.ok (true, [decoCondaUser, decoCondaUser2])
    ∧ decoCondaUser.statically_defined = true
    ∧ decoCondaUser2.statically_defined = true
    ∧ decoCondaUser.TYPE = "conda"
    ∧ decoCondaUser2.TYPE = "conda"
    ∧ [decoCondaUser, decoCondaUser2].filter (fun d => d.TYPE == "pip") = [] := by
  exact ⟨by decide, rfl, rfl, rfl, rfl, by decide⟩

/-- C3 (amended): when more than one user-authored decorator of a kind
remains after synthesized-duplicate removal, the gate fails with the
multiple-conflicting-decorators error of that kind naming all offenders,
provided at least one instance of the other kind is also attached (the
full-manager kind is checked first); when no instance of the other kind is
attached, the gate returns continue without raising.  The first conjunct
covers duplicate full-manager (conda) instances, the second duplicate
package-only (pip) instances. -/
theorem c3_amended (selfName : String) (bp bc : Bool) (decorators : List Deco) :
    (2 ≤ (survivingOfKind "conda" decorators).length →
      (survivingOfKind "pip" decorators ≠ [] →
        resolve_pip_or_conda_deco selfName bp bc decorators
          = Except.error (Err.multipleConda
              ((survivingOfKind "conda" decorators).map Deco.name)))
      ∧ (survivingOfKind "pip" decorators = [] →
        resolve_pip_or_conda_deco selfName bp bc decorators = Except.ok (true, decorators)))
    ∧ (2 ≤ (survivingOfKind "pip" decorators).length →
      ((survivingOfKind "conda" decorators).length = 1 →
        resolve_pip_or_conda_deco selfName bp bc decorators
          = Except.error (Err.multiplePip
              ((survivingOfKind "pip" decorators).map Deco.name)))
      ∧ (survivingOfKind "conda" decorators = [] →
        resolve_pip_or_conda_deco selfName bp bc decorators = Except.ok (true, decorators))) := by
  constructor
  · intro h2
    have hne : decorators ≠ [] := by
      intro hnil
      rw [hnil] at h2
      simp [survivingOfKind] at h2
    obtain ⟨last, hlast⟩ := Option.isSome_iff_exists.mp (List.getLast?_isSome.mpr hne)
    constructor
    · intro hp
      have hc0 : ((survivingOfKind "conda" decorators).length == 0
          || (survivingOfKind "pip" decorators).length == 0) = false := by
        simp only [Bool.or_eq_false_iff, beq_eq_false_iff_ne]
        constructor
        · omega
        · simpa [List.length_eq_zero] using hp
      have hc1 : (survivingOfKind "conda" decorators).length > 1 := by omega
      simp only [resolve_pip_or_conda_deco, hlast]
      rw [if_neg (by rw [hc0]; exact Bool.false_ne_true), if_pos hc1]
    · intro hp
      have hc0 : ((survivingOfKind "conda" decorators).length == 0
          || (survivingOfKind "pip" decorators).length == 0) = true := by
        simp [hp]
      simp only [resolve_pip_or_conda_deco, hlast]
      rw [if_pos hc0]
  · intro h2
    have hne : decorators ≠ [] := by
      intro hnil
      rw [hnil] at h2
      simp [survivingOfKind] at h2
    obtain ⟨last, hlast⟩ := Option.isSome_iff_exists.mp (List.getLast?_isSome.mpr hne)
    constructor
    · intro hc1
      have hc0 : ((survivingOfKind "conda" decorators).length == 0
          || (survivingOfKind "pip" decorators).length == 0) = false := by
        simp only [Bool.or_eq_false_iff, beq_eq_false_iff_ne]
        constructor
        · omega
        · omega
      have hcnot : ¬((survivingOfKind "conda" decorators).length > 1) := by omega
      have hp1 : (survivingOfKind "pip" decorators).length > 1 := by omega
      simp only [resolve_pip_or_conda_deco, hlast]
      rw [if_neg (by rw [hc0]; exact Bool.false_ne_true), if_neg hcnot, if_pos hp1]
    · intro hc0'
      have hc0 : ((survivingOfKind "conda" decorators).length == 0
          || (survivingOfKind "pip" decorators).length == 0) = true := by
        simp [hc0']
      simp only [resolve_pip_or_conda_deco, hlast]
      rw [if_pos hc0]

/-- C3 (witness): two user-authored conda decorators together with a
synthesized pip decorator raise the multiple-conda error naming both
offenders, and two user-authored pip decorators together with a conda
decorator raise the multiple-pip error naming both offenders. -/
theorem c3_witness :
    resolve_pip_or_conda_deco "conda" false false
        [decoCondaUser, decoCondaUser2, decoPipSynth]
      = Except.error (Err.multipleConda ["conda", "conda"])
    ∧ resolve_pip_or_conda_deco "pip" false false
        [decoCondaUser, decoPipUser, decoPipUser2]
      = Except.error (Err.multiplePip ["pip", "pip"]) := by
  have h1 := ((c3_amended "conda" false false
    [decoCondaUser, decoCondaUser2, decoPipSynth]).1 (by decide)).1 (by decide)
  have h2 := ((c3_amended "pip" false false
    [decoCondaUser, decoPipUser, decoPipUser2]).2 (by decide)).1 (by decide)
  rw [h1, h2]
  exact ⟨rfl, rfl⟩

/-! ## C4: synthesized-pip / user-conda arbitration -/

/-- C4: on a step carrying exactly one user-authored full-manager (conda)
instance and one tooling-synthesized package-only (pip) instance, with no
base decorator of either kind, the gate leaves exactly the conda instance
surviving and shrinks the decorator list by exactly one, whichever instance's
gate is invoked first (the list mutation happens during the gate of the
instance occupying the last list position; a gate invoked after cleanup
short-circuits without touching the list).  In general, once the arbitration
point is reached, the pip instance is the one discarded unless it is
user-authored or a pip base decorator is present, in which case the conda
instance is discarded instead. -/
theorem c4_conflict_resolution (c p : Deco)
    (hct : c.TYPE = "conda") (hcs : c.statically_defined = true)
    (hpt : p.TYPE = "pip") (hps : p.statically_defined = false)
    (hname : c.name ≠ p.name) :
    (resolve_pip_or_conda_deco c.name false false [c, p] = Except.ok (true, [c, p])
      ∧ resolve_pip_or_conda_deco p.name false false [c, p] = Except.ok (false, [c])
      ∧ resolve_pip_or_conda_deco c.name false false [c] = Except.ok (true, [c])
      ∧ ([c].length = [c, p].length - 1))
    ∧ (∀ (c' p' : Deco) (bp bc : Bool), c'.TYPE = "conda" → p'.TYPE = "pip" →
        c'.name ≠ p'.name →
        ¬(c'.statically_defined = true ∧ p'.statically_defined = true) →
        ¬(bp = true ∧ c'.statically_defined = true) →
        ¬(bc = true ∧ p'.statically_defined = true) →
        resolve_pip_or_conda_deco p'.name bp bc [c', p']
          = Except.ok ((p'.statically_defined || bp),
              if p'.statically_defined || bp then [p'] else [c'])) := by
  constructor
  · obtain ⟨ci, cn, cT, cs⟩ := c
    obtain ⟨pi, pn, pT, ps⟩ := p
    simp only at hct hcs hpt hps hname
    subst hct; subst hcs; subst hpt; subst hps
    have hbeq : (cn == pn) = false := beq_eq_false_iff_ne.mpr hname
    have hbeq' : (pn == cn) = false := beq_eq_false_iff_ne.mpr (Ne.symm hname)
    refine ⟨?_, ?_, ?_, rfl⟩
    · simp [resolve_pip_or_conda_deco, survivingOfKind, List.getLast?, hbeq, hbeq',
        List.erase_cons, List.contains_cons, hname, Ne.symm hname]
    · simp [resolve_pip_or_conda_deco, survivingOfKind, List.getLast?, hbeq, hbeq',
        List.erase_cons, List.contains_cons, hname, Ne.symm hname]
    · simp [resolve_pip_or_conda_deco, survivingOfKind, List.getLast?]
  · intro c' p' bp bc hct' hpt' hname' hnotboth hnpb hncb
    obtain ⟨ci, cn, cT, cs⟩ := c'
    obtain ⟨pi, pn, pT, ps⟩ := p'
    simp only at hct' hpt' hname' hnotboth hnpb hncb
    subst hct'; subst hpt'
    have hbeq : (cn == pn) = false := beq_eq_false_iff_ne.mpr hname'
    have hbeq' : (pn == cn) = false := beq_eq_false_iff_ne.mpr (Ne.symm hname')
    cases cs with
    | true =>
      have hps' : ps = false := by
        by_contra hcon
        exact hnotboth ⟨rfl, by simpa using hcon⟩
      subst hps'
      have hbp : bp = false := by
        by_contra hcon
        exact hnpb ⟨by simpa using hcon, rfl⟩
      subst hbp
      simp [resolve_pip_or_conda_deco, survivingOfKind, List.getLast?, hbeq, hbeq',
        List.erase_cons, List.contains_cons, hname', Ne.symm hname']
    | false =>
      cases ps with
      | true =>
        have hbc : bc = false := by
          by_contra hcon
          exact hncb ⟨by simpa using hcon, rfl⟩
        subst hbc
        have hne : (⟨ci, cn, "conda", false⟩ : Deco) ≠ ⟨pi, pn, "pip", true⟩ := by
          intro hcon
          simp at hcon
        have hbne : ((⟨ci, cn, "conda", false⟩ : Deco) == ⟨pi, pn, "pip", true⟩) = false :=
          beq_eq_false_iff_ne.mpr hne
        simp [resolve_pip_or_conda_deco, survivingOfKind, List.getLast?, hbeq, hbeq',
          List.erase_cons, List.contains_cons, hbne, hname', Ne.symm hname']
      | false =>
        cases bp with
        | true =>
          have hne : (⟨ci, cn, "conda", false⟩ : Deco) ≠ ⟨pi, pn, "pip", false⟩ := by
            intro hcon
            simp at hcon
          have hbne : ((⟨ci, cn, "conda", false⟩ : Deco) == ⟨pi, pn, "pip", false⟩) = false :=
            beq_eq_false_iff_ne.mpr hne
          simp [resolve_pip_or_conda_deco, survivingOfKind, List.getLast?, hbeq, hbeq',
            List.erase_cons, List.contains_cons, hbne, hname', Ne.symm hname']
        | false =>
          simp [resolve_pip_or_conda_deco, survivingOfKind, List.getLast?, hbeq, hbeq',
            List.erase_cons, List.contains_cons, hname', Ne.symm hname']

/-- C4 (witness): the arbitration at the concrete user-conda and
synthesized-pip instances. -/
theorem c4_witness :
    resolve_pip_or_conda_deco "conda" false false [decoCondaUser, decoPipSynth]
      = Except.ok (true, [decoCondaUser, decoPipSynth])
    ∧ resolve_pip_or_conda_deco "pip" false false [decoCondaUser, decoPipSynth]
      = Except.ok (false, [decoCondaUser]) := by
  have h := c4_conflict_resolution decoCondaUser decoPipSynth rfl rfl rfl rfl (by decide)
  exact ⟨h.1.1, h.1.2.1⟩

end MetaflowConda

namespace MetaflowConda

/-! ## C5: requirement-id permutation invariance

The entry order `entryLE` compares injective `List Nat` keys, so sorting is a
canonical form: two lists that are permutations of each other sort equal. -/

theorem natListLe_total : ∀ (a b : List Nat), natListLe a b = true ∨ natListLe b a = true := by
  intro a
  induction a with
  | nil => intro b; exact Or.inl rfl
  | cons x xs ih =>
    intro b
    cases b with
    | nil => exact Or.inr rfl
    | cons y ys =>
      rcases Nat.lt_trichotomy x y with h | h | h
      · exact Or.inl (by simp [natListLe, h])
      · subst h
        rcases ih ys with h' | h'
        · exact Or.inl (by simp [natListLe, h'])
        · exact Or.inr (by simp [natListLe, h'])
      · exact Or.inr (by simp [natListLe, h])

theorem natListLe_trans :
    ∀ (a b c : List Nat), natListLe a b = true → natListLe b c = true →
      natListLe a c = true := by
  intro a
  induction a with
  | nil => intro b c _ _; rfl
  | cons x xs ih =>
    intro b c hab hbc
    cases b with
    | nil => simp [natListLe] at hab
    | cons y ys =>
      cases c with
      | nil => simp [natListLe] at hbc
      | cons z zs =>
        simp only [natListLe, Bool.or_eq_true, Bool.and_eq_true, decide_eq_true_eq,
          beq_iff_eq] at hab hbc ⊢
        rcases hab with hab | ⟨hab, hab'⟩
        · rcases hbc with hbc | ⟨hbc, _⟩
          · exact Or.inl (Nat.lt_trans hab hbc)
          · exact Or.inl (hbc ▸ hab)
        · rcases hbc with hbc | ⟨hbc, hbc'⟩
          · exact Or.inl (hab ▸ hbc)
          · exact Or.inr ⟨hab.trans hbc, ih ys zs hab' hbc'⟩

theorem natListLe_antisymm :
    ∀ (a b : List Nat), natListLe a b = true → natListLe b a = true → a = b := by
  intro a
  induction a with
  | nil =>
    intro b _ hba
    cases b with
    | nil => rfl
    | cons y ys => simp [natListLe] at hba
  | cons x xs ih =>
    intro b hab hba
    cases b with
    | nil => simp [natListLe] at hab
    | cons y ys =>
      simp only [natListLe, Bool.or_eq_true, Bool.and_eq_true, decide_eq_true_eq,
        beq_iff_eq] at hab hba
      rcases hab with hab | ⟨hab, hab'⟩
      · rcases hba with hba | ⟨hba, _⟩
        · omega
        · omega
      · rcases hba with hba | ⟨_, hba'⟩
        · omega
        · rw [hab, ih ys hab' hba']

theorem char_toNat_lt_sep (c : Char) : c.toNat < 4294967296 :=
  c.val.toNat_lt_size

theorem char_toNat_inj (a b : Char) (h : a.toNat = b.toNat) : a = b := by
  apply Char.eq_of_val_eq
  apply UInt32.ext
  exact h

theorem append_sep_inj :
    ∀ (as cs bs ds : List Nat),
      (∀ x ∈ as, x < 4294967296) → (∀ x ∈ cs, x < 4294967296) →
      as ++ 4294967296 :: bs = cs ++ 4294967296 :: ds → as = cs ∧ bs = ds := by
  intro as
  induction as with
  | nil =>
    intro cs bs ds _ hcs h
    cases cs with
    | nil => simpa using h
    | cons c cs' =>
      simp only [List.nil_append, List.cons_append, List.cons.injEq] at h
      have := hcs c (List.mem_cons_self c cs')
      omega
  | cons a as' ih =>
    intro cs bs ds has hcs h
    cases cs with
    | nil =>
      simp only [List.nil_append, List.cons_append, List.cons.injEq] at h
      have := has a (List.mem_cons_self a as')
      omega
    | cons c cs' =>
      simp only [List.cons_append, List.cons.injEq] at h
      obtain ⟨hac, h'⟩ := h
      obtain ⟨h1, h2⟩ := ih cs' bs ds
        (fun x hx => has x (List.mem_cons_of_mem a hx))
        (fun x hx => hcs x (List.mem_cons_of_mem c hx)) h'
      exact ⟨by rw [hac, h1], h2⟩

theorem key_inj (a b : TStr) (h : TStr.key a = TStr.key b) : a = b := by
  obtain ⟨ca, va⟩ := a
  obtain ⟨cb, vb⟩ := b
  simp only [TStr.key] at h
  rw [List.append_assoc, List.append_assoc, List.singleton_append,
    List.singleton_append] at h
  obtain ⟨h1, h2⟩ := append_sep_inj _ _ _ _
    (fun x hx => by
      obtain ⟨c, _, rfl⟩ := List.mem_map.mp hx
      exact char_toNat_lt_sep c)
    (fun x hx => by
      obtain ⟨c, _, rfl⟩ := List.mem_map.mp hx
      exact char_toNat_lt_sep c) h
  have hinj : Function.Injective Char.toNat := fun x y => char_toNat_inj x y
  have hc : ca.data = cb.data := List.map_injective_iff.mpr hinj h1
  have hv : va.data = vb.data := List.map_injective_iff.mpr hinj h2
  have hc' : ca = cb := by cases ca; cases cb; exact congrArg String.mk hc
  have hv' : va = vb := by cases va; cases vb; exact congrArg String.mk hv
  rw [hc', hv']

theorem entryLE_total : ∀ (a b : TStr), entryLE a b ∨ entryLE b a := by
  intro a b
  exact natListLe_total a.key b.key

theorem entryLE_trans : ∀ (a b c : TStr), entryLE a b → entryLE b c → entryLE a c := by
  intro a b c hab hbc
  exact natListLe_trans a.key b.key c.key hab hbc

theorem entryLE_antisymm : ∀ (a b : TStr), entryLE a b → entryLE b a → a = b := by
  intro a b hab hba
  exact key_inj a b (natListLe_antisymm a.key b.key hab hba)

theorem sortEntries_eq_of_perm (l₁ l₂ : List TStr) (h : List.Perm l₁ l₂) :
    sortEntries l₁ = sortEntries l₂ := by
  haveI : IsTotal TStr entryLE := ⟨entryLE_total⟩
  haveI : IsTrans TStr entryLE := ⟨fun a b c => entryLE_trans a b c⟩
  haveI : IsAntisymm TStr entryLE := ⟨fun a b => entryLE_antisymm a b⟩
  exact List.eq_of_perm_of_sorted
    ((List.perm_insertionSort entryLE l₁).trans
      (h.trans (List.perm_insertionSort entryLE l₂).symm))
    (List.sorted_insertionSort entryLE l₁)
    (List.sorted_insertionSort entryLE l₂)

theorem lookup_eq_none_iff (k : String) :
    ∀ (l : List (String × String)), List.lookup k l = none ↔ ∀ p ∈ l, p.1 ≠ k := by
  intro l
  induction l with
  | nil => simp [List.lookup]
  | cons p ps ih =>
    obtain ⟨a, b⟩ := p
    by_cases h : k = a
    · subst h
      simp [List.lookup]
    · have hb : (k == a) = false := beq_eq_false_iff_ne.mpr h
      simp only [List.lookup, hb]
      rw [ih]
      constructor
      · intro hall q hq
        rcases List.mem_cons.mp hq with rfl | hq'
        · exact fun hcon => h hcon.symm
        · exact hall q hq'
      · intro hall q hq
        exact hall q (List.mem_cons_of_mem _ hq)

theorem lookup_some_mem (k v : String) :
    ∀ (l : List (String × String)), List.lookup k l = some v → (k, v) ∈ l := by
  intro l
  induction l with
  | nil => intro h; cases h
  | cons p ps ih =>
    obtain ⟨a, b⟩ := p
    intro h
    by_cases hk : k = a
    · subst hk
      simp only [List.lookup, beq_self_eq_true] at h
      obtain rfl : b = v := Option.some.inj h
      exact List.mem_cons_self _ _
    · have hb : (k == a) = false := beq_eq_false_iff_ne.mpr hk
      simp only [List.lookup, hb] at h
      exact List.mem_cons_of_mem _ (ih h)

theorem mem_lookup_of_nodupkeys (k v : String) :
    ∀ (l : List (String × String)), (l.map Prod.fst).Nodup → (k, v) ∈ l →
      List.lookup k l = some v := by
  intro l
  induction l with
  | nil => intro _ h; cases h
  | cons p ps ih =>
    obtain ⟨a, b⟩ := p
    intro hnd hmem
    rcases List.mem_cons.mp hmem with heq | hmem'
    · injection heq with h1 h2
      subst h1
      subst h2
      simp [List.lookup]
    · have hka : k ≠ a := by
        intro hcon
        subst hcon
        have : k ∈ ps.map Prod.fst := List.mem_map.mpr ⟨(k, v), hmem', rfl⟩
        exact (List.nodup_cons.mp (by simpa using hnd)).1 this
      have hb : (k == a) = false := beq_eq_false_iff_ne.mpr hka
      simp only [List.lookup, hb]
      exact ih (List.nodup_cons.mp (by simpa using hnd)).2 hmem'

theorem lookup_eq_of_perm (k : String) (l₁ l₂ : List (String × String))
    (hnd : (l₁.map Prod.fst).Nodup) (hp : List.Perm l₁ l₂) :
    List.lookup k l₁ = List.lookup k l₂ := by
  cases h1 : List.lookup k l₁ with
  | some v =>
    have hmem : (k, v) ∈ l₂ := hp.mem_iff.mp (lookup_some_mem k v l₁ h1)
    have hnd2 : (l₂.map Prod.fst).Nodup := (hp.map Prod.fst).nodup hnd
    exact (mem_lookup_of_nodupkeys k v l₂ hnd2 hmem).symm
  | none =>
    have hall := (lookup_eq_none_iff k l₁).mp h1
    exact ((lookup_eq_none_iff k l₂).mpr
      (fun p hm => hall p (hp.mem_iff.mpr hm))).symm

theorem lookup_none_iff_of_perm (k : String) (l₁ l₂ : List (String × String))
    (hp : List.Perm l₁ l₂) :
    (List.lookup k l₁ = none) ↔ (List.lookup k l₂ = none) := by
  rw [lookup_eq_none_iff, lookup_eq_none_iff]
  exact ⟨fun h p hm => h p (hp.mem_iff.mpr hm), fun h p hm => h p (hp.mem_iff.mp hm)⟩

theorem dictUpdate_perm (base₁ base₂ locl₁ locl₂ : List (String × String))
    (hndl : (locl₁.map Prod.fst).Nodup)
    (hpb : List.Perm base₁ base₂) (hpl : List.Perm locl₁ locl₂) :
    List.Perm (dictUpdate base₁ locl₁) (dictUpdate base₂ locl₂) := by
  rw [dictUpdate, dictUpdate]
  apply List.Perm.append
  · refine (hpb.map _).trans ?_
    rw [List.map_congr_left]
    intro p _
    rw [lookup_eq_of_perm p.1 locl₁ locl₂ hndl hpl]
  · have hcongr : locl₁.filter (fun p => (List.lookup p.1 base₁).isNone)
        = locl₁.filter (fun p => (List.lookup p.1 base₂).isNone) := by
      apply List.filter_congr
      intro p _
      have hiff := lookup_none_iff_of_perm p.1 base₁ base₂ hpb
      cases h1 : List.lookup p.1 base₁ with
      | none => rw [hiff.mp h1]
      | some v =>
        cases h2 : List.lookup p.1 base₂ with
        | none => rw [hiff.mpr h2] at h1; cases h1
        | some w => rfl
    rw [hcongr]
    exact hpl.filter _

theorem merge_dep_dicts_perm (pin u₁ u₂ : List (String × String))
    (hp : List.Perm u₁ u₂) :
    List.Perm (merge_dep_dicts pin u₁) (merge_dep_dicts pin u₂) :=
  (List.Perm.refl pin).append (hp.filter _)

theorem mergeSources_perm (l₁ l₂ b₁ b₂ : List String)
    (hl : List.Perm l₁ l₂) (hb : List.Perm b₁ b₂) :
    List.Perm (mergeSources l₁ b₁) (mergeSources l₂ b₂) := by
  rw [mergeSources, mergeSources,
    List.perm_ext_iff_of_nodup (nodup_dedupSeen _ _) (nodup_dedupSeen _ _)]
  intro a
  rw [mem_dedupSeen, mem_dedupSeen]
  constructor
  · rintro ⟨h1, h2⟩; exact ⟨(hl.append hb).mem_iff.mp h1, h2⟩
  · rintro ⟨h1, h2⟩; exact ⟨(hl.append hb).mem_iff.mpr h1, h2⟩

theorem reqIdOf_no_ref (ext : Ext) (cfg : Cfg) (pv : String)
    (hfe : cfg.fromEnv = none) (hpv : python_version cfg = Except.ok pv) :
    reqIdOf ext cfg initState = Except.ok (get_req_id ext
      (((merge_dep_dicts (ext.pinned pv)
            (dictUpdate cfg.base.libraries cfg.attrs.libraries)).map
          (fun p => TStr.mk "conda" (depEntry p.1 p.2))
        ++ (pip_deps cfg).map
          (fun p => TStr.mk "pip" (if p.2 = "" then p.1 else p.1 ++ "==" ++ ext.canonVer p.2)))
        ++ [TStr.mk "conda" ("python==" ++ ext.canonVer pv)])
      ((conda_channels cfg).map (fun x => TStr.mk "conda" x)
        ++ (pip_sources cfg).map (fun x => TStr.mk "pip" x))) := by
  have hpin : pinnedCondaDeps ext cfg = Except.ok (ext.pinned pv) := by
    rw [pinnedCondaDeps.eq_def, hfe, hpv]
  have hcd : conda_deps ext cfg = Except.ok (merge_dep_dicts (ext.pinned pv)
      (dictUpdate cfg.base.libraries cfg.attrs.libraries)) := by
    rw [conda_deps.eq_def, hpin]
  rw [reqIdOf.eq_def, resolve_not_cached ext cfg initState rfl,
    computeResolve.eq_def, hcd]
  simp only [hfe, hpv]

/-- C5: for configurations with no symbolic reference, the requirement-id
component of the environment identity is invariant under any permutation of
the declared dependency and source entries: two independently constructed
engines with the same declared attribute sets up to permutation of the
library maps, pip-package maps, channel lists and pip-source lists produce
the same requirement id.  (The local-layer maps carry duplicate-free keys, as
Python dicts do.) -/
theorem c5_req_id_perm_invariant (ext : Ext) (cfg1 cfg2 : Cfg)
    (hfe1 : cfg1.fromEnv = none) (hfe2 : cfg2.fromEnv = none)
    (hpy : cfg1.attrs.python = cfg2.attrs.python)
    (hbpy : cfg1.base.python = cfg2.base.python)
    (hplat : cfg1.platformPython = cfg2.platformPython)
    (hlibs : List.Perm cfg1.attrs.libraries cfg2.attrs.libraries)
    (hlibnd : (cfg1.attrs.libraries.map Prod.fst).Nodup)
    (hblibs : List.Perm cfg1.base.libraries cfg2.base.libraries)
    (hpips : List.Perm cfg1.attrs.pipPackages cfg2.attrs.pipPackages)
    (hpipnd : (cfg1.attrs.pipPackages.map Prod.fst).Nodup)
    (hbpips : List.Perm cfg1.base.pipPackages cfg2.base.pipPackages)
    (hch : List.Perm cfg1.attrs.channels cfg2.attrs.channels)
    (hbch : List.Perm cfg1.base.channels cfg2.base.channels)
    (hps : List.Perm cfg1.attrs.pipSources cfg2.attrs.pipSources)
    (hbps : List.Perm cfg1.base.pipSources cfg2.base.pipSources) :
    reqIdOf ext cfg1 initState = reqIdOf ext cfg2 initState := by
  have hpveq : python_version cfg1 = python_version cfg2 := by
    rw [python_version.eq_def, python_version.eq_def,
      from_env_python.eq_def, from_env_python.eq_def, hfe1, hfe2, hpy, hbpy, hplat]
  obtain ⟨pv, hpv1⟩ : ∃ pv, python_version cfg1 = Except.ok pv := by
    rw [python_version.eq_def, from_env_python.eq_def, hfe1]
    exact ⟨_, rfl⟩
  have hpv2 : python_version cfg2 = Except.ok pv := hpveq ▸ hpv1
  rw [reqIdOf_no_ref ext cfg1 pv hfe1 hpv1, reqIdOf_no_ref ext cfg2 pv hfe2 hpv2]
  apply congrArg Except.ok
  rw [get_req_id, get_req_id]
  apply sortEntries_eq_of_perm
  apply List.Perm.map
  apply List.Perm.append
  · apply List.Perm.append_right
    apply List.Perm.append
    · exact (merge_dep_dicts_perm _ _ _
        (dictUpdate_perm _ _ _ _ hlibnd hblibs hlibs)).map _
    · have : List.Perm (pip_deps cfg1) (pip_deps cfg2) := by
        rw [pip_deps, pip_deps]
        exact merge_dep_dicts_perm _ _ _
          (dictUpdate_perm _ _ _ _ hpipnd hbpips hpips)
      exact this.map _
  · apply List.Perm.append
    · exact (mergeSources_perm _ _ _ _ hch hbch).map _
    · exact (mergeSources_perm _ _ _ _ hps hbps).map _

/-- C5 (witness): two concrete configurations whose library maps and channel
lists are permutations of each other receive the same requirement id. -/
theorem c5_witness : reqIdOf ext0 cfgA initState = reqIdOf ext0 cfgB initState :=
  c5_req_id_perm_invariant ext0 cfgA cfgB rfl rfl rfl rfl rfl
    (by decide) (by decide) (by decide) (by decide) (by decide) (by decide)
    (by decide) (by decide) (by decide) (by decide)

end MetaflowConda
